import Mathlib

/-!
Verification development for the gpustat-web aggregation server
(src/gpustat_web/app.py).

The store `context.host_status` is an `OrderedDict` mapping hostname to
the latest status text; we embed it as an association list that preserves
insertion order, with assignment updating in place.  Pure helpers from
the Python standard library (`str.strip`, `str.split`) and from the
`termcolor` package are embedded explicitly.
-/

namespace GpustatWeb

/-- Store is the embedding of `context.host_status : OrderedDict`,
an insertion-ordered mapping hostname to latest status text. -/
abbrev Store := List (String × String)

/-- Lookup in an ordered dict. -/
def odGet : Store → String → Option String
  | [], _ => none
  | (k', v') :: rest, k => if k' = k then some v' else odGet rest k

/-- Assignment `d[k] = v` on an `OrderedDict`: update in place when the
key exists (keeping its position), otherwise append at the end. -/
def odSet : Store → String → String → Store
  | [], k, v => [(k, v)]
  | (k', v') :: rest, k, v =>
      if k' = k then (k, v) :: rest else (k', v') :: odSet rest k v

/-- Embedding of `termcolor.colored` with the white color code. -/
def coloredWhite (s : String) : String := "\x1b[37m" ++ s ++ "\x1b[0m"

/-- Embedding of `termcolor.colored` with the red color code. -/
def coloredRed (s : String) : String := "\x1b[31m" ++ s ++ "\x1b[0m"

/-- Embedding of `Context.host_set_message`: store, under the hostname
key, the hostname in parentheses colored white, then the message, then a
newline. -/
def host_set_message (st : Store) (hostname msg : String) : Store :=
  odSet st hostname (coloredWhite ("(" ++ hostname ++ ") ") ++ msg ++ "\n")

/-- ASCII whitespace as recognized by Python `str.strip()`. -/
def isPySpace (c : Char) : Bool :=
  c = ' ' || c = '\t' || c = '\n' || c = '\r' || c = '\x0b' || c = '\x0c'

/-- Embedding of Python `s.strip()` (ASCII whitespace). -/
def pyStrip (s : String) : String :=
  ⟨((s.data.dropWhile isPySpace).reverse.dropWhile isPySpace).reverse⟩

/-- Embedding of `s.split(chr)[0]` for a newline separator:
the first line of `s`. -/
def pyFirstLine (s : String) : String :=
  ⟨s.data.takeWhile (fun c => c ≠ '\n')⟩

/-- The kinds of store writes the program performs for a host:
the startup placeholder (`spawn_clients`), a connection-level failure
message, a non-zero-exit failure message, and a successful poll
(`run_client`). -/
inductive HostWrite
  | placeholder
  | connectFailure (errKind errMsg : String)
  | commandError (exitStatus : Int) (stderrFirstLine : String)
  | success (stdout : String)

/-- The exact text each write stores for host `h`, read off the source:
placeholder and failures go through `host_set_message`, success stores
`result.stdout.strip() + "\n\n\n\n"` directly. -/
def writeText (h : String) : HostWrite → String
  | .placeholder =>
      coloredWhite ("(" ++ h ++ ") ") ++ "Loading ..." ++ "\n"
  | .connectFailure k m =>
      coloredWhite ("(" ++ h ++ ") ") ++ coloredRed (k ++ ": " ++ m) ++ "\n"
  | .commandError c e =>
      coloredWhite ("(" ++ h ++ ") ") ++
        coloredRed ("[Error " ++ toString c ++ "] " ++ e) ++ "\n"
  | .success out => pyStrip out ++ "\n\n\n\n"

/-- Apply one write for host `h` to the store. -/
def applyWrite (st : Store) (h : String) (w : HostWrite) : Store :=
  odSet st h (writeText h w)

/-! Embedding of the ANSI-escape regex `RE_ANSI` (app.py line 34) and of
`RE_ANSI.sub` with an empty replacement.  The pattern is an escape byte
0x1B followed by either a single byte in 0x40-0x5A or 0x5C-0x5F, or a
CSI sequence: a bracket, then parameter bytes 0x30-0x3F, then
intermediate bytes 0x20-0x2F, then one final byte 0x40-0x7E.  The
character classes of the CSI alternative are pairwise disjoint, so the
greedy runs are forced and the match is deterministic. -/

/-- Single-character escapes accepted by the first alternative of
`RE_ANSI`: the class excludes the bracket 0x5B. -/
def isAnsiFe (c : Char) : Bool :=
  (0x40 ≤ c.toNat && c.toNat ≤ 0x5A) || (0x5C ≤ c.toNat && c.toNat ≤ 0x5F)

/-- CSI parameter bytes, the class 0x30-0x3F. -/
def isCsiParam (c : Char) : Bool := 0x30 ≤ c.toNat && c.toNat ≤ 0x3F

/-- CSI intermediate bytes, the class 0x20-0x2F. -/
def isCsiInter (c : Char) : Bool := 0x20 ≤ c.toNat && c.toNat ≤ 0x2F

/-- CSI final bytes, the class 0x40-0x7E. -/
def isCsiFinal (c : Char) : Bool := 0x40 ≤ c.toNat && c.toNat ≤ 0x7E

/-- Number of characters of a CSI sequence after the opening escape and
bracket: the greedy parameter run, the greedy intermediate run, and one
final byte; `none` when no final byte follows the runs. -/
def csiRestLen (rest2 : List Char) : Option Nat :=
  let ps := rest2.takeWhile isCsiParam
  let rest3 := rest2.drop ps.length
  let ib := rest3.takeWhile isCsiInter
  let rest4 := rest3.drop ib.length
  match rest4 with
  | f :: _ => if isCsiFinal f then some (ps.length + ib.length + 1) else none
  | [] => none

/-- Length of the `RE_ANSI` match starting at the head of `cs`, when
there is one. -/
def ansiMatchLen : List Char → Option Nat
  | '\x1b' :: c :: rest2 =>
      if isAnsiFe c then some 2
      else if c = '[' then (csiRestLen rest2).map (fun k => k + 2)
      else none
  | _ => none

theorem ansiMatchLen_pos (cs : List Char) (n : Nat) (h : ansiMatchLen cs = some n) :
    1 ≤ n := by
  unfold ansiMatchLen at h
  split at h
  · split at h
    · simp at h; omega
    · split at h
      · rcases Option.map_eq_some'.mp h with ⟨k, -, hk⟩
        omega
      · simp at h
  · simp at h

/-- Embedding of `re.sub` with the `RE_ANSI` pattern and an empty
replacement: scan left to right, delete each match and resume after its
end, otherwise keep the character and advance by one. -/
def reAnsiSubAux : List Char → List Char
  | [] => []
  | c :: rest =>
    match h : ansiMatchLen (c :: rest) with
    | some n => reAnsiSubAux ((c :: rest).drop n)
    | none => c :: reAnsiSubAux rest
termination_by cs => cs.length
decreasing_by
  · have := ansiMatchLen_pos _ _ h
    simp [List.length_drop]
    omega
  · simp

/-- Embedding of `RE_ANSI.sub` applied with the empty replacement. -/
def re_ansi_sub (s : String) : String := ⟨reAnsiSubAux s.data⟩

/-! Embedding of `render_gpustat_body`. -/

/-- One entry of the store survives the loop of `render_gpustat_body`
when its text is non-empty (`if not status: continue`) and, when a
filter is given, its host is listed
(`if nodes is not None and host not in nodes: continue`). -/
def keepEntry (nodes : Option (List String)) (p : String × String) : Bool :=
  (p.2 ≠ "" : Bool) && (match nodes with
    | none => true
    | some ns => decide (p.1 ∈ ns))

/-- The entries that contribute to the rendered body, in store order. -/
def snapshotEntries (st : Store) (nodes : Option (List String)) : Store :=
  st.filter (keepEntry nodes)

/-- Concatenation of a list of strings, in order. -/
def joinAll : List String → String
  | [] => ""
  | s :: rest => s ++ joinAll rest

/-- The accumulation loop of `render_gpustat_body`: starting from the
empty body, append each surviving status text. -/
def renderBody (st : Store) (nodes : Option (List String)) : String :=
  st.foldl (fun acc p => if keepEntry nodes p then acc ++ p.2 else acc) ""

/-- Embedding of `render_gpustat_body`.  The `ansi2html` converter used
by the html mode is an external collaborator, passed as `ansiConv`.  The
function only reads the store; the returned store component records
that.  An unsupported mode raises `ValueError(mode)`, embedded as
`Except.error mode`. -/
def render_gpustat_body (ansiConv : String → Bool → String) (st : Store)
    (mode : String) (full_html : Bool) (nodes : Option (List String)) :
    Except String String × Store :=
  let body := renderBody st nodes
  if mode = "html" then (.ok (ansiConv body full_html), st)
  else if mode = "ansi" then (.ok body, st)
  else if mode = "plain" then (.ok (re_ansi_sub body), st)
  else (.error mode, st)

/-! Embedding of `_parse_host_string` and its regex.  The pattern is an
anchored match of an optional user group (one or more word characters or
hyphens, then an at sign), a host group (one or more non-colon
characters, greedy), and an optional port group (a colon then one or
more digits); `re.match` does not require the match to reach the end of
the string.  Backtracking: the greedy word run before the at sign is
forced maximal (an at sign is not a word character), and when taking the
user group leaves nothing for the host group, the engine retries with
the optional user group skipped. -/

/-- Characters of the class of word characters plus hyphen (ASCII). -/
def isWordChar (c : Char) : Bool := c.isAlphanum || c = '_' || c = '-'

/-- The three named groups of the host regex, as matched. -/
structure HostMatch where
  user : Option String
  host : String
  port : Option String
deriving DecidableEq, Repr

/-- Match the host group and the optional port group at `cs`: the host
is the maximal non-empty run of non-colon characters; a port is taken
when a colon followed by at least one digit comes next (the digit run is
greedy; trailing unmatched characters are ignored, as with `re.match`). -/
def matchHostPort (cs : List Char) : Option (String × Option String) :=
  let hostRun := cs.takeWhile (fun c => c ≠ ':')
  if hostRun.isEmpty then none
  else
    match cs.drop hostRun.length with
    | ':' :: rest2 =>
      let digits := rest2.takeWhile Char.isDigit
      if digits.isEmpty then some (⟨hostRun⟩, none)
      else some (⟨hostRun⟩, some ⟨digits⟩)
    | _ => some (⟨hostRun⟩, none)

/-- Attempt on `cs` with the optional user group taken: the maximal
non-empty run of word characters, then an at sign, then host and port.
Fails when the run is empty, when no at sign follows it, or when the
host group has nothing left to match. -/
def tryUserMatch (cs : List Char) : Option HostMatch :=
  if (cs.takeWhile isWordChar).isEmpty then none
  else match cs.drop (cs.takeWhile isWordChar).length with
    | '@' :: rest =>
      match matchHostPort rest with
      | some (h, p) => some ⟨some ⟨cs.takeWhile isWordChar⟩, h, p⟩
      | none => none
    | _ => none

/-- The full anchored regex match of `_parse_host_string`: the optional
user group is tried greedily first and dropped when its continuation
fails, as the backtracking engine does. -/
def regexMatchHost (s : String) : Option HostMatch :=
  match tryUserMatch s.data with
  | some m => some m
  | none => (matchHostPort s.data).map (fun hp => ⟨none, hp.1, hp.2⟩)

/-- Value of a decimal digit string, as Python `int` (the digit run is
non-empty whenever the port group matched). -/
def natOfDigits (s : String) : Nat :=
  s.data.foldl (fun n c => n * 10 + (c.toNat - 48)) 0

/-- Embedding of `_parse_host_string`: on no match, or an empty host
group, raise `ValueError(f"Invalid host format: ...")`; otherwise the
username falls back to "netdb" when the user group is missing or falsy,
and the port falls back to the default when the port group is missing.
Returns `(username, hostname, port)` as the source does. -/
def _parse_host_string (default_port : Nat) (netloc : String) :
    Except String (String × String × Nat) :=
  match regexMatchHost netloc with
  | none => .error ("Invalid host format: " ++ netloc)
  | some m =>
    if m.host = "" then .error ("Invalid host format: " ++ netloc)
    else
      .ok ((match m.user with
            | some u => if u = "" then "netdb" else u
            | none => "netdb"),
           m.host,
           (match m.port with
            | some d => natOfDigits d
            | none => default_port))

/-- Splitting on a comma separator, Python style: every comma starts a
new field, and the empty string gives one empty field. -/
def splitCommaAux : List Char → List Char → List String
  | [], acc => [⟨acc.reverse⟩]
  | c :: rest, acc =>
      if c = ',' then ⟨acc.reverse⟩ :: splitCommaAux rest []
      else splitCommaAux rest (c :: acc)

/-- Embedding of Python `s.split` with a comma separator. -/
def pySplitComma (s : String) : List String := splitCommaAux s.data []

/-- Embedding of `_parse_querystring_list`: `None` or an empty string is
falsy and yields no filter; any other string is stripped as a whole and
split on commas. -/
def _parse_querystring_list (value : Option String) : Option (List String) :=
  match value with
  | none => none
  | some v => if v = "" then none else some (pySplitComma (pyStrip v))

/-! Embedding of `spawn_clients`.  The whole body sits in one `try`
block: the list comprehension parses every token and raises at the first
malformed one, in which case the handler logs the exception and returns
with nothing started; `zip` unpacking also raises when the host list is
empty.  On the success path the placeholder is written for every parsed
hostname, then one `run_client` per endpoint is launched. -/

/-- Dictionary lookup with a default, as `exec_cmds.get(hostname, d)`. -/
def dictGet (d : List (String × String)) (k deflt : String) : String :=
  (odGet d k).getD deflt

/-- Parse every host token left to right, stopping at the first failure,
as the list comprehension in `spawn_clients` does. -/
def parseAll (dp : Nat) : List String → Except String (List (String × String × Nat))
  | [] => .ok []
  | h :: rest =>
    match _parse_host_string dp h with
    | .error e => .error e
    | .ok ep => (parseAll dp rest).map (fun l => ep :: l)

/-- Result of `spawn_clients`: the store after the placeholder writes,
the endpoints for which a `run_client` supervisor was launched, each
with its username, hostname, port and exec command, and whether the
startup exception handler ran. -/
structure SpawnResult where
  store : Store
  started : List (String × String × Nat × String)
  startupError : Bool
deriving DecidableEq, Repr

/-- Embedding of `spawn_clients`. -/
def spawn_clients (default_port : Nat) (hosts : List String)
    (exec_cmds : List (String × String)) (st : Store) : SpawnResult :=
  match parseAll default_port hosts with
  | .error _ => ⟨st, [], true⟩
  | .ok parsed =>
    if parsed.isEmpty then ⟨st, [], true⟩
    else
      ⟨parsed.foldl (fun s e => host_set_message s e.2.1 "Loading ...") st,
       parsed.map (fun e =>
         (e.1, e.2.1, e.2.2, dictGet exec_cmds e.2.1 "gpustat --color --force-color")),
       false⟩

/-! Embedding of the reconnect loop of `run_client` for a host whose
connection attempt always fails.  Each iteration of the outer loop runs
`_loop_body`, which raises; the handler catches every ordinary
exception, writes the failure message through `host_set_message`, sleeps
for the backoff delay, and the loop continues.  No code path leaves the
loop: only task cancellation (a base exception the handler does not
catch) ends it. -/

/-- Whether an iteration of the outer loop of `run_client` falls through
to the next iteration or leaves the loop. -/
inductive LoopOutcome
  | continues
  | leaves
deriving DecidableEq, Repr

/-- One iteration of the outer loop of `run_client` when the connection
attempt raises an exception with the given kind and message: write the
exception type name, a colon and a space, and the exception message, in
red, through `host_set_message`, then sleep and continue. -/
def run_client_cycle (st : Store) (hostname : String) (err : String × String) :
    Store × LoopOutcome :=
  (host_set_message st hostname (coloredRed (err.1 ++ ": " ++ err.2)), .continues)

/-- The store after `n` failing connection cycles of `run_client` for
`hostname`, where cycle `i` raises the exception `errs i`. -/
def run_client_failing (hostname : String) (errs : Nat → String × String)
    (st : Store) : Nat → Store
  | 0 => st
  | n + 1 =>
    (run_client_cycle (run_client_failing hostname errs st n) hostname (errs n)).1

/-! Shared lemmas about the store, the renderer and the parser. -/

theorem odGet_odSet_self (st : Store) (k v : String) :
    odGet (odSet st k v) k = some v := by
  induction st with
  | nil => simp [odSet, odGet]
  | cons p rest ih =>
    obtain ⟨a, b⟩ := p
    by_cases h : a = k
    · simp [odSet, odGet, h]
    · simp [odSet, odGet, h, ih]

theorem odGet_odSet_ne (st : Store) (k k' v : String) (hne : k ≠ k') :
    odGet (odSet st k v) k' = odGet st k' := by
  induction st with
  | nil => simp [odSet, odGet, hne]
  | cons p rest ih =>
    obtain ⟨a, b⟩ := p
    by_cases h : a = k
    · subst h
      simp [odSet, odGet, hne]
    · simp [odSet, odGet, h, ih]

theorem odGet_mem (st : Store) (k v : String) (h : odGet st k = some v) :
    (k, v) ∈ st := by
  induction st with
  | nil => simp [odGet] at h
  | cons p rest ih =>
    obtain ⟨a, b⟩ := p
    by_cases hak : a = k
    · subst hak
      simp [odGet] at h
      simp [h]
    · simp [odGet, hak] at h
      exact List.mem_cons_of_mem _ (ih h)

theorem mem_odSet (st : Store) (k v : String) (p : String × String)
    (hp : p ∈ odSet st k v) : p = (k, v) ∨ p ∈ st := by
  induction st with
  | nil =>
    simp [odSet] at hp
    exact Or.inl hp
  | cons q rest ih =>
    obtain ⟨a, b⟩ := q
    by_cases hak : a = k
    · subst hak
      simp [odSet] at hp
      rcases hp with hp | hp
      · exact Or.inl hp
      · exact Or.inr (List.mem_cons_of_mem _ hp)
    · simp [odSet, hak] at hp
      rcases hp with hp | hp
      · exact Or.inr (by simp [hp])
      · rcases ih hp with hp' | hp'
        · exact Or.inl hp'
        · exact Or.inr (List.mem_cons_of_mem _ hp')

theorem append_newline_ne_empty (a : String) : a ++ "\n" ≠ "" := by
  intro h0
  have h1 : (a ++ "\n").data = ("" : String).data := congrArg String.data h0
  rw [String.data_append] at h1
  have h2 : ("\n" : String).data = ['\n'] := rfl
  have h3 : ("" : String).data = [] := rfl
  rw [h2, h3] at h1
  exact absurd h1 (by simp)

theorem foldl_render_eq (nodes : Option (List String)) (l : Store) (acc : String) :
    l.foldl (fun acc p => if keepEntry nodes p then acc ++ p.2 else acc) acc
      = acc ++ joinAll ((l.filter (keepEntry nodes)).map Prod.snd) := by
  induction l generalizing acc with
  | nil => simp [joinAll, String.append_empty]
  | cons p rest ih =>
    by_cases h : keepEntry nodes p
    · simp [List.foldl_cons, List.filter_cons, h, ih, joinAll, String.append_assoc]
    · simp [List.foldl_cons, List.filter_cons, h, ih, joinAll]

theorem renderBody_eq (st : Store) (nodes : Option (List String)) :
    renderBody st nodes = joinAll ((snapshotEntries st nodes).map Prod.snd) := by
  have := foldl_render_eq nodes st ""
  rw [renderBody, snapshotEntries, this, String.empty_append]

theorem foldl_placeholder_notmem (eps : List (String × String × Nat)) (st : Store)
    (h : String) (hnm : h ∉ eps.map (fun e => e.2.1)) :
    odGet (eps.foldl (fun s e => host_set_message s e.2.1 "Loading ...") st) h
      = odGet st h := by
  induction eps generalizing st with
  | nil => rfl
  | cons e rest ih =>
    simp only [List.map_cons, List.mem_cons, not_or] at hnm
    rw [List.foldl_cons, ih _ hnm.2, host_set_message,
      odGet_odSet_ne _ _ _ _ (Ne.symm hnm.1)]

theorem foldl_placeholder_mem (eps : List (String × String × Nat)) (st : Store)
    (h : String) (hm : h ∈ eps.map (fun e => e.2.1)) :
    odGet (eps.foldl (fun s e => host_set_message s e.2.1 "Loading ...") st) h
      = some (coloredWhite ("(" ++ h ++ ") ") ++ "Loading ..." ++ "\n") := by
  induction eps generalizing st with
  | nil => simp at hm
  | cons e rest ih =>
    rw [List.foldl_cons]
    by_cases hmem : h ∈ rest.map (fun e => e.2.1)
    · exact ih _ hmem
    · have he : e.2.1 = h := by
        simp only [List.map_cons, List.mem_cons] at hm
        rcases hm with hm | hm
        · exact hm.symm
        · exact absurd hm hmem
      rw [foldl_placeholder_notmem rest _ h hmem, host_set_message, he,
        odGet_odSet_self]

theorem parseAll_error_of_mem (dp : Nat) (hosts : List String) (t e : String)
    (hmem : t ∈ hosts) (herr : _parse_host_string dp t = .error e) :
    ∃ e', parseAll dp hosts = .error e' := by
  induction hosts with
  | nil => simp at hmem
  | cons a rest ih =>
    rcases List.mem_cons.mp hmem with rfl | hmem'
    · exact ⟨e, by simp [parseAll, herr]⟩
    · match hpa : _parse_host_string dp a with
      | .error e'' => exact ⟨e'', by simp [parseAll, hpa]⟩
      | .ok ep =>
        obtain ⟨e', he'⟩ := ih hmem'
        exact ⟨e', by simp [parseAll, hpa, he', Except.map]⟩

theorem spawn_clients_error (dp : Nat) (hosts : List String)
    (ecs : List (String × String)) (st : Store) (e : String)
    (he : parseAll dp hosts = .error e) :
    spawn_clients dp hosts ecs st = ⟨st, [], true⟩ := by
  unfold spawn_clients
  rw [he]

theorem spawn_clients_nil_parsed (dp : Nat) (hosts : List String)
    (ecs : List (String × String)) (st : Store)
    (he : parseAll dp hosts = .ok []) :
    spawn_clients dp hosts ecs st = ⟨st, [], true⟩ := by
  unfold spawn_clients
  rw [he]
  rfl

theorem spawn_clients_ok (dp : Nat) (hosts : List String)
    (ecs : List (String × String)) (st : Store)
    (parsed : List (String × String × Nat))
    (hok : parseAll dp hosts = .ok parsed) (hne : parsed.isEmpty = false) :
    spawn_clients dp hosts ecs st =
      ⟨parsed.foldl (fun s e => host_set_message s e.2.1 "Loading ...") st,
       parsed.map (fun e =>
         (e.1, e.2.1, e.2.2, dictGet ecs e.2.1 "gpustat --color --force-color")),
       false⟩ := by
  unfold spawn_clients
  rw [hok]
  simp [hne]

theorem tryUserMatch_user_ne_empty (cs : List Char) (m : HostMatch)
    (h : tryUserMatch cs = some m) : ∀ u, m.user = some u → u ≠ "" := by
  intro u hu
  unfold tryUserMatch at h
  split at h
  · simp at h
  · rename_i hne
    split at h
    · split at h
      · rename_i hp heq
        cases h
        simp at hu
        subst hu
        intro h0
        have : (cs.takeWhile isWordChar) = [] := congrArg String.data h0
        rw [List.isEmpty_iff] at hne
        exact absurd this hne
      · simp at h
    · simp at h

theorem regexMatchHost_user_ne_empty (s : String) (m : HostMatch)
    (h : regexMatchHost s = some m) : ∀ u, m.user = some u → u ≠ "" := by
  intro u hu
  unfold regexMatchHost at h
  split at h
  · rename_i m' heq
    cases h
    exact tryUserMatch_user_ne_empty _ _ heq u hu
  · rcases Option.map_eq_some'.mp h with ⟨hp, -, hm⟩
    rw [← hm] at hu
    simp at hu

/-! Theorems for the spec claims. -/

/-- C1: for a host whose connection attempt always fails, every
iteration of the supervisor loop of `run_client` ends by continuing
(there is no terminal state short of cancellation), and within one
backoff cycle the store holds a failure message for the host that
contains the error kind and message in the colon-separated format. -/
theorem c1_failing_supervisor (hostname : String) (errs : Nat → String × String)
    (st : Store) (n : Nat) :
    (run_client_cycle (run_client_failing hostname errs st n) hostname (errs n)).2
      = LoopOutcome.continues
  ∧ run_client_failing hostname errs st (n + 1)
      = host_set_message (run_client_failing hostname errs st n) hostname
          (coloredRed ((errs n).1 ++ ": " ++ (errs n).2))
  ∧ ∃ a b, odGet (run_client_failing hostname errs st (n + 1)) hostname
      = some (a ++ ((errs n).1 ++ ": " ++ (errs n).2) ++ b) := by
  refine ⟨rfl, rfl, coloredWhite ("(" ++ hostname ++ ") ") ++ "\x1b[31m",
    "\x1b[0m" ++ "\n", ?_⟩
  show odGet (host_set_message (run_client_failing hostname errs st n) hostname
      (coloredRed ((errs n).1 ++ ": " ++ (errs n).2))) hostname = _
  rw [host_set_message, odGet_odSet_self]
  simp [coloredRed, String.append_assoc]

/-- C2: the snapshot kept by `render_gpustat_body` is a sublist of the
store (original insertion order), contains no host outside the filter
when one is given, contains no entry with empty text, and the rendered
body is the concatenation of the surviving texts in that order. -/
theorem c2_snapshot_order_filter (st : Store) (nodes : Option (List String)) :
    (snapshotEntries st nodes).Sublist st
  ∧ (∀ ns p, nodes = some ns → p ∈ snapshotEntries st nodes → p.1 ∈ ns)
  ∧ (∀ p ∈ snapshotEntries st nodes, p.2 ≠ "")
  ∧ renderBody st nodes = joinAll ((snapshotEntries st nodes).map Prod.snd) := by
  refine ⟨List.filter_sublist st, ?_, ?_, renderBody_eq st nodes⟩
  · rintro ns p rfl hp
    have hk := (List.mem_filter.mp hp).2
    simp [keepEntry] at hk
    exact hk.2
  · intro p hp
    have hk := (List.mem_filter.mp hp).2
    have h1 := ((Bool.and_eq_true _ _).mp hk).1
    exact of_decide_eq_true h1

theorem c2_snapshot_order_filter_witness : ("a" : String) ∈ ["a"] :=
  (c2_snapshot_order_filter [("a", "x\n")] (some ["a"])).2.1 ["a"] ("a", "x\n")
    rfl (by decide)

/-- C3, counterexample: after a successful poll with captured output
"out", the snapshot for the host returns the stripped output with four
newlines appended, which is not the exact captured output. -/
theorem c3_counterexample :
    renderBody (applyWrite [] "H" (HostWrite.success "out")) (some ["H"])
      = "out\n\n\n\n"
  ∧ ("out\n\n\n\n" : String) ≠ "out" := by
  exact ⟨rfl, by decide⟩

/-- C3, amended: after a successful poll the store entry for the host is
exactly the captured output stripped of surrounding whitespace with four
newlines appended, and any subsequent write replaces the entry entirely:
the stored value does not depend on the previous store content. -/
theorem c3_amended_replacement (st : Store) (h out : String) :
    odGet (applyWrite st h (HostWrite.success out)) h
      = some (pyStrip out ++ "\n\n\n\n")
  ∧ ∀ (st₁ st₂ : Store) (w : HostWrite),
      odGet (applyWrite st₁ h w) h = odGet (applyWrite st₂ h w) h := by
  constructor
  · exact odGet_odSet_self st h _
  · intro st₁ st₂ w
    rw [applyWrite, applyWrite, odGet_odSet_self, odGet_odSet_self]

/-- C4: parsing the scenario host tokens with default port 22 yields the
expected endpoints, and in general the parsed username is the user group
when the regex matched one and the default "netdb" otherwise, and the
parsed port is the numeric port group when the regex matched one and the
default port otherwise. -/
theorem c4_parse_host_string :
    _parse_host_string 22 "alice@node1:2222" = .ok ("alice", "node1", 2222)
  ∧ _parse_host_string 22 "node2" = .ok ("netdb", "node2", 22)
  ∧ ∀ (dp : Nat) (s u h : String) (p : Nat),
      _parse_host_string dp s = .ok (u, h, p) →
      ∃ m, regexMatchHost s = some m ∧ h = m.host
        ∧ (m.user = none → u = "netdb")
        ∧ (∀ u₀, m.user = some u₀ → u = u₀)
        ∧ (m.port = none → p = dp)
        ∧ (∀ d, m.port = some d → p = natOfDigits d) := by
  refine ⟨rfl, rfl, ?_⟩
  intro dp s u h p hok
  unfold _parse_host_string at hok
  split at hok
  · simp at hok
  · rename_i m heq
    split at hok
    · simp at hok
    · simp only [Except.ok.injEq, Prod.mk.injEq] at hok
      obtain ⟨hu, hh, hp⟩ := hok
      refine ⟨m, heq, hh.symm, ?_, ?_, ?_, ?_⟩
      · intro hnone
        rw [hnone] at hu
        exact hu.symm
      · intro u₀ hsome
        have hne := regexMatchHost_user_ne_empty s m heq u₀ hsome
        rw [hsome] at hu
        rw [← hu]
        exact if_neg hne
      · intro hnone
        rw [hnone] at hp
        exact hp.symm
      · intro d hsome
        rw [hsome] at hp
        exact hp.symm

theorem c4_parse_host_string_witness :
    ∃ m, regexMatchHost "node9:7" = some m ∧ "node9" = m.host
      ∧ (m.user = none → "netdb" = "netdb")
      ∧ (∀ u₀, m.user = some u₀ → "netdb" = u₀)
      ∧ (m.port = none → 7 = 22)
      ∧ (∀ d, m.port = some d → 7 = natOfDigits d) :=
  c4_parse_host_string.2.2 22 "node9:7" "netdb" "node9" 7 rfl

/-- C5, counterexample: with the host list containing the well-formed
token "node2" and the malformed token ":", `spawn_clients` starts no
supervisor at all and runs its startup exception handler, instead of
starting a partial fleet. -/
theorem c5_counterexample :
    _parse_host_string 22 "node2" = .ok ("netdb", "node2", 22)
  ∧ _parse_host_string 22 ":" = .error "Invalid host format: :"
  ∧ spawn_clients 22 ["node2", ":"] [] [] = ⟨[], [], true⟩ := by
  exact ⟨rfl, rfl, rfl⟩

/-- C5, amended: one malformed token aborts startup for the whole fleet:
no supervisor is started and the store is untouched, with the exception
logged rather than surfaced; the same happens for an empty host list;
supervisors are started for every token exactly when the list is
non-empty and every token parses. -/
theorem c5_amended_abort_all (dp : Nat) (hosts : List String)
    (ecs : List (String × String)) (st : Store) :
    ((∃ t ∈ hosts, ∃ e, _parse_host_string dp t = .error e) →
      spawn_clients dp hosts ecs st = ⟨st, [], true⟩)
  ∧ (hosts = [] → spawn_clients dp hosts ecs st = ⟨st, [], true⟩)
  ∧ (∀ parsed, parseAll dp hosts = .ok parsed → parsed ≠ [] →
      (spawn_clients dp hosts ecs st).startupError = false
      ∧ (spawn_clients dp hosts ecs st).started.map (fun q => (q.1, q.2.1, q.2.2.1))
          = parsed) := by
  refine ⟨?_, ?_, ?_⟩
  · rintro ⟨t, hmem, e, herr⟩
    obtain ⟨e', he'⟩ := parseAll_error_of_mem dp hosts t e hmem herr
    exact spawn_clients_error dp hosts ecs st e' he'
  · rintro rfl
    exact spawn_clients_nil_parsed dp [] ecs st rfl
  · intro parsed hok hne
    have hemp : parsed.isEmpty = false := by
      cases parsed with
      | nil => exact absurd rfl hne
      | cons a l => rfl
    rw [spawn_clients_ok dp hosts ecs st parsed hok hemp]
    refine ⟨rfl, ?_⟩
    simp only [List.map_map]
    have hfun : ((fun q : String × String × Nat × String => (q.1, q.2.1, q.2.2.1)) ∘
        (fun e : String × String × Nat =>
          (e.1, e.2.1, e.2.2, dictGet ecs e.2.1 "gpustat --color --force-color")))
        = id := by
      funext e
      rfl
    rw [hfun, List.map_id]

theorem c5_amended_abort_all_witness :
    spawn_clients 22 ["node2", ":"] [] [] = ⟨[], [], true⟩ :=
  (c5_amended_abort_all 22 ["node2", ":"] [] []).1
    ⟨":", by decide, "Invalid host format: :", rfl⟩

/-- C6: on the successful startup path, every endpoint whose supervisor
was launched has a store entry, the entry is the non-empty placeholder
text, and the entry is part of the unfiltered snapshot. -/
theorem c6_placeholder_before_poll (dp : Nat) (hosts : List String)
    (ecs : List (String × String)) (st : Store)
    (hok : (spawn_clients dp hosts ecs st).startupError = false) :
    ∀ ep ∈ (spawn_clients dp hosts ecs st).started,
      ∃ v, odGet (spawn_clients dp hosts ecs st).store ep.2.1 = some v
        ∧ v ≠ ""
        ∧ (ep.2.1, v) ∈ snapshotEntries (spawn_clients dp hosts ecs st).store none := by
  intro ep hep
  rcases hpa : parseAll dp hosts with e | parsed
  · rw [spawn_clients_error dp hosts ecs st e hpa] at hok
    simp at hok
  · by_cases hnil : parsed = []
    · subst hnil
      rw [spawn_clients_nil_parsed dp hosts ecs st hpa] at hok
      simp at hok
    · have hemp : parsed.isEmpty = false := by
        cases parsed with
        | nil => exact absurd rfl hnil
        | cons a l => rfl
      rw [spawn_clients_ok dp hosts ecs st parsed hpa hemp] at hep ⊢
      rcases List.mem_map.mp hep with ⟨e, hmem, rfl⟩
      have hkey : e.2.1 ∈ parsed.map (fun e => e.2.1) := List.mem_map_of_mem _ hmem
      refine ⟨coloredWhite ("(" ++ e.2.1 ++ ") ") ++ "Loading ..." ++ "\n",
        foldl_placeholder_mem parsed st e.2.1 hkey, append_newline_ne_empty _, ?_⟩
      refine List.mem_filter.mpr
        ⟨odGet_mem _ _ _ (foldl_placeholder_mem parsed st e.2.1 hkey), ?_⟩
      simp [keepEntry, append_newline_ne_empty]

theorem c6_placeholder_before_poll_witness :
    ∃ v, odGet (spawn_clients 22 ["node1"] [] []).store "node1" = some v
      ∧ v ≠ ""
      ∧ ("node1", v) ∈ snapshotEntries (spawn_clients 22 ["node1"] [] []).store none :=
  c6_placeholder_before_poll 22 ["node1"] [] [] rfl
    ("netdb", "node1", 22, "gpustat --color --force-color") (by decide)

/-- C7: a render mode outside the three supported ones makes
`render_gpustat_body` raise with the mode as the error value, and the
call leaves the store exactly unchanged in every mode. -/
theorem c7_invalid_format (conv : String → Bool → String) (st : Store)
    (mode : String) (full : Bool) (nodes : Option (List String)) :
    ((mode ≠ "html" → mode ≠ "ansi" → mode ≠ "plain" →
      (render_gpustat_body conv st mode full nodes).1 = .error mode))
  ∧ (render_gpustat_body conv st mode full nodes).2 = st := by
  constructor
  · intro h1 h2 h3
    simp [render_gpustat_body, h1, h2, h3]
  · rw [render_gpustat_body]
    split_ifs <;> rfl

theorem c7_invalid_format_witness :
    (render_gpustat_body (fun s _ => s) [] "xml" false none).1 = .error "xml" :=
  (c7_invalid_format (fun s _ => s) [] "xml" false none).1
    (by decide) (by decide) (by decide)

/-- C8: for every store and filter, rendering in the raw mode and then
stripping control codes with the `RE_ANSI` substitution equals rendering
the same snapshot directly in the plain mode. -/
theorem c8_raw_strip_eq_plain (conv : String → Bool → String) (st : Store)
    (full : Bool) (nodes : Option (List String)) :
    ((render_gpustat_body conv st "ansi" full nodes).1).map re_ansi_sub
      = (render_gpustat_body conv st "plain" full nodes).1 := by
  rw [render_gpustat_body, render_gpustat_body]
  simp [Except.map]

/-- C9, counterexample: a whitespace-only nodes value is truthy, so it
is stripped to the empty string and split into the singleton list of the
empty string, a filter that matches no host: against a store holding a
non-empty entry for node1, the response is empty instead of including
every host. -/
theorem c9_counterexample :
    _parse_querystring_list (some " ") = some [""]
  ∧ _parse_querystring_list (some " ") ≠ none
  ∧ renderBody [("node1", "x\n")] (_parse_querystring_list (some " ")) = "" := by
  exact ⟨by decide, by decide, by decide⟩

/-- C9, amended: an absent or empty nodes value yields no filter; any
other value, including whitespace-only ones, is stripped as a whole and
split on commas with no trimming around the individual names; a
whitespace-only value therefore yields the singleton filter of the empty
string, which excludes every host with a non-empty name. -/
theorem c9_amended_querystring :
    _parse_querystring_list none = none
  ∧ _parse_querystring_list (some "") = none
  ∧ (∀ s, s ≠ "" → _parse_querystring_list (some s) = some (pySplitComma (pyStrip s)))
  ∧ (∀ s, s ≠ "" → pyStrip s = "" → _parse_querystring_list (some s) = some [""])
  ∧ (∀ st : Store, (∀ p ∈ st, p.1 ≠ "") → renderBody st (some [""]) = "") := by
  refine ⟨rfl, rfl, ?_, ?_, ?_⟩
  · intro s hs
    simp [_parse_querystring_list, hs]
  · intro s hs hstrip
    simp only [_parse_querystring_list, hs, if_neg hs, hstrip]
    rfl
  · intro st hall
    rw [renderBody_eq]
    have : snapshotEntries st (some [""]) = [] := by
      rw [snapshotEntries, List.filter_eq_nil_iff]
      intro p hp
      simp [keepEntry]
      intro _
      exact hall p hp
    rw [this]
    rfl

theorem c9_amended_querystring_witness :
    _parse_querystring_list (some " x ") = some (pySplitComma (pyStrip " x ")) :=
  c9_amended_querystring.2.2.1 " x " (by decide)

/-- C10: every write the program performs stores a string that ends in a
newline and is non-empty; a store whose entries are all non-empty is
returned whole by the unfiltered snapshot (the empty-entry skip branch
does nothing), and writes preserve that every entry is non-empty. -/
theorem c10_writes_nonempty (h : String) (w : HostWrite) (st : Store) :
    (∃ a, writeText h w = a ++ "\n")
  ∧ writeText h w ≠ ""
  ∧ ((∀ p ∈ st, p.2 ≠ "") → snapshotEntries st none = st)
  ∧ ((∀ p ∈ st, p.2 ≠ "") → ∀ p ∈ applyWrite st h w, p.2 ≠ "") := by
  have hex : ∃ a, writeText h w = a ++ "\n" := by
    cases w with
    | placeholder => exact ⟨_, rfl⟩
    | connectFailure k m => exact ⟨_, rfl⟩
    | commandError c e => exact ⟨_, rfl⟩
    | success out =>
      refine ⟨pyStrip out ++ "\n\n\n", ?_⟩
      have h4 : ("\n\n\n\n" : String) = "\n\n\n" ++ "\n" := by decide
      show pyStrip out ++ "\n\n\n\n" = pyStrip out ++ "\n\n\n" ++ "\n"
      rw [String.append_assoc, ← h4]
  have hne : writeText h w ≠ "" := by
    obtain ⟨a, ha⟩ := hex
    rw [ha]
    exact append_newline_ne_empty a
  refine ⟨hex, hne, ?_, ?_⟩
  · intro hall
    rw [snapshotEntries, List.filter_eq_self]
    intro p hp
    simp [keepEntry]
    exact hall p hp
  · intro hall p hp
    rcases mem_odSet st h (writeText h w) p hp with hp' | hp'
    · rw [hp']
      exact hne
    · exact hall p hp'

theorem c10_writes_nonempty_witness :
    snapshotEntries [("n", "x\n")] none = [("n", "x\n")] :=
  (c10_writes_nonempty "n" HostWrite.placeholder [("n", "x\n")]).2.2.1 (by decide)

end GpustatWeb
